import Mathlib

/-!
Verification development for the streamweave-attractor workflow runtime.

The Rust sources are shallowly embedded: strings are modelled as `List Char`
(written `Str` below), `HashMap<String, String>` as an association list with
first-match lookup and shadowing insert (all statements below only ever
observe maps through `ctxGet`, for which this model agrees with the Rust
map), and fallible functions as `Except`.  Every definition is translated
from the corresponding Rust item named in its doc comment.
-/

namespace Attractor

/-- Strings of the embedding: Rust `String` / `&str` modelled as a list of
characters.  Byte-level operations of the source are modelled at character
granularity, which agrees with the source on ASCII input. -/
abbrev Str := List Char

/-- Converts a Lean string literal to the embedded string type. -/
def str (s : String) : Str := s.data

/-- Models Rust `u8::to_ascii_lowercase` lifted to characters: ASCII capital
letters are shifted to lower case, all other characters kept. -/
def asciiLower (c : Char) : Char :=
  if 'A' ≤ c ∧ c ≤ 'Z' then Char.ofNat (c.toNat + 32) else c

/-- Models Rust `str::eq_ignore_ascii_case`. -/
def eqIgnoreAsciiCase (a b : Str) : Bool :=
  a.map asciiLower == b.map asciiLower

/-- Whitespace predicate used by the `trim*` models (Rust
`char::is_whitespace`; agrees on ASCII whitespace). -/
def isWs (c : Char) : Bool := c.isWhitespace

/-- Models Rust `str::trim_start`. -/
def trimL (l : Str) : Str := l.dropWhile isWs

/-- Models Rust `str::trim_end`. -/
def trimR (l : Str) : Str := (l.reverse.dropWhile isWs).reverse

/-- Models Rust `str::trim`. -/
def trimBoth (l : Str) : Str := trimR (trimL l)

/-- Models Rust `str::strip_prefix`: `some` of the remainder when `p` is a
prefix of `l`, otherwise `none`. -/
def dropPre (p l : Str) : Option Str :=
  if p.isPrefixOf l then some (l.drop p.length) else none

/-- Outcome status for a node execution
(src/src/types/outcome_status.rs, `OutcomeStatus`). -/
inductive OutcomeStatus where
  | Success
  | PartialSuccess
  | Error
  | Retry
deriving DecidableEq, Repr

/-- Models the `fmt::Display` implementation for `OutcomeStatus`
(src/src/types/outcome_status.rs lines 17-26). -/
def statusDisplay : OutcomeStatus → Str
  | .Success => str "success"
  | .PartialSuccess => str "partial_success"
  | .Error => str "error"
  | .Retry => str "retry"

/-- Models the derived `fmt::Debug` implementation for `OutcomeStatus`
(the string produced by `format!("{:?}", status)`): the bare variant name. -/
def statusDebug : OutcomeStatus → Str
  | .Success => str "Success"
  | .PartialSuccess => str "PartialSuccess"
  | .Error => str "Error"
  | .Retry => str "Retry"

/-- Status is success-like: `success` or `partial_success` (spec §3:
"jointly ok"; same test as `is_success` in src/src/nodes/exec_node.rs). -/
def isSuccessLike (s : OutcomeStatus) : Bool :=
  s == .Success || s == .PartialSuccess

/-- Result of executing a single Attractor pipeline node
(src/src/types/node_outcome.rs, `NodeOutcome`). -/
structure NodeOutcome where
  status : OutcomeStatus
  notes : Option Str
  failure_reason : Option Str
  context_updates : List (Str × Str)
  preferred_label : Option Str
  suggested_next_ids : List Str
deriving DecidableEq, Repr

/-- Models `NodeOutcome::success` (src/src/types/node_outcome.rs lines 22-32). -/
def NodeOutcome.success (notes : Str) : NodeOutcome :=
  { status := .Success
    notes := some notes
    failure_reason := none
    context_updates := []
    preferred_label := none
    suggested_next_ids := [] }

/-- Models `NodeOutcome::error` (src/src/types/node_outcome.rs lines 34-44):
the reason goes to `failure_reason`, `notes` is `None`. -/
def NodeOutcome.error (reason : Str) : NodeOutcome :=
  { status := .Error
    notes := none
    failure_reason := some reason
    context_updates := []
    preferred_label := none
    suggested_next_ids := [] }

/-- Run context: Rust `HashMap<String, String>` modelled as an association
list observed through `ctxGet`; `ctxInsert` shadows older entries, which
gives the same `ctxGet` semantics as `HashMap::insert`. -/
abbrev RunContext := List (Str × Str)

/-- Lookup in a run context (models `HashMap::get`). -/
def ctxGet (m : RunContext) (k : Str) : Option Str :=
  (m.find? (fun p => p.1 == k)).map (·.2)

/-- Insert into a run context (models `HashMap::insert` through `ctxGet`). -/
def ctxInsert (m : RunContext) (k v : Str) : RunContext :=
  (k, v) :: m

/-- Models `apply_updates` (src/src/nodes/apply_context_updates.rs lines
30-40): fold the outcome's `context_updates` into the context, then insert
the `format!("{:?}", status)` string under `"outcome"`, then the preferred
label under `"preferred_label"` when present. -/
def apply_updates (context : RunContext) (outcome : NodeOutcome) : RunContext :=
  let ctx := outcome.context_updates.foldl (fun m p => ctxInsert m p.1 p.2) context
  let ctx := ctxInsert ctx (str "outcome") (statusDebug outcome.status)
  match outcome.preferred_label with
  | some l => ctxInsert ctx (str "preferred_label") l
  | none => ctx

/-- Models `apply_context_updates` (src/src/nodes/execution_loop.rs lines
28-36); the body is identical to `apply_updates` up to `&mut` plumbing. -/
def apply_context_updates (context : RunContext) (outcome : NodeOutcome) : RunContext :=
  let ctx := outcome.context_updates.foldl (fun m p => ctxInsert m p.1 p.2) context
  let ctx := ctxInsert ctx (str "outcome") (statusDebug outcome.status)
  match outcome.preferred_label with
  | some l => ctxInsert ctx (str "preferred_label") l
  | none => ctx

/-- Models `shape_is_start` (src/src/types/attractor_node.rs). -/
def shapeIsStart (shape : Str) : Bool := eqIgnoreAsciiCase shape (str "Mdiamond")

/-- Models `shape_is_exit` (src/src/types/attractor_node.rs). -/
def shapeIsExit (shape : Str) : Bool := eqIgnoreAsciiCase shape (str "Msquare")

/-- Models `id_is_start` (src/src/types/attractor_node.rs). -/
def idIsStart (id : Str) : Bool := eqIgnoreAsciiCase id (str "start")

/-- Models `id_is_exit` (src/src/types/attractor_node.rs). -/
def idIsExit (id : Str) : Bool := eqIgnoreAsciiCase id (str "exit")

/-- A node in the Attractor DOT graph
(src/src/types/attractor_node.rs, `AttractorNode`). -/
structure AttractorNode where
  id : Str
  shape : Str
  handler_type : Option Str
  label : Option Str
  prompt : Option Str
  command : Option Str
  goal_gate : Bool
  max_retries : Nat
deriving DecidableEq, Repr

/-- Models `AttractorNode::is_start`. -/
def AttractorNode.isStart (n : AttractorNode) : Bool :=
  shapeIsStart n.shape || idIsStart n.id

/-- Models `AttractorNode::is_exit`. -/
def AttractorNode.isExit (n : AttractorNode) : Bool :=
  shapeIsExit n.shape || idIsExit n.id

/-- An edge in the Attractor DOT graph
(src/src/types/attractor_edge.rs, `AttractorEdge`). -/
structure AttractorEdge where
  from_node : Str
  to_node : Str
  label : Option Str
  condition : Option Str
  weight : Int
deriving DecidableEq, Repr

/-- Parsed Attractor pipeline graph (src/src/types/attractor_graph.rs,
`AttractorGraph`); the `HashMap` of nodes is an association list (no
duplicate keys when built through `mapInsert`). -/
structure AttractorGraph where
  goal : Str
  nodes : List (Str × AttractorNode)
  edges : List AttractorEdge
  default_max_retry : Nat
deriving DecidableEq, Repr

/-- Key lookup in the node map (models `HashMap::get`). -/
def mapGet (m : List (Str × AttractorNode)) (k : Str) : Option AttractorNode :=
  (m.find? (fun p => p.1 == k)).map (·.2)

/-- Key insert in the node map (models `HashMap::insert`: replaces any
earlier binding of the key, so the list never holds duplicate keys). -/
def mapInsert (m : List (Str × AttractorNode)) (k : Str) (v : AttractorNode) :
    List (Str × AttractorNode) :=
  (k, v) :: m.filter (fun p => ¬ (p.1 = k))

/-- Models `AttractorGraph::find_start` (first node whose `is_start` holds;
`HashMap::values` order is unspecified, the list order stands in for it). -/
def AttractorGraph.findStart (g : AttractorGraph) : Option AttractorNode :=
  (g.nodes.find? (fun p => p.2.isStart)).map (·.2)

/-- Models `AttractorGraph::find_exit`. -/
def AttractorGraph.findExit (g : AttractorGraph) : Option AttractorNode :=
  (g.nodes.find? (fun p => p.2.isExit)).map (·.2)

/-- Models `AttractorGraph::outgoing_edges` (edges with the given source, in
declaration order). -/
def AttractorGraph.outgoingEdges (g : AttractorGraph) (node_id : Str) :
    List AttractorEdge :=
  g.edges.filter (fun e => e.from_node == node_id)

/-- Models `validate` (src/src/nodes/validate_graph.rs lines 36-44): the only
checks are that `find_start` and `find_exit` succeed. -/
def validate (g : AttractorGraph) : Except Str Unit :=
  if g.findStart = none then
    Except.error (str "Graph must have exactly one start node (shape=Mdiamond)")
  else if g.findExit = none then
    Except.error (str "Graph must have exactly one exit node (shape=Msquare)")
  else
    Except.ok ()

/-- Models the fallible front of `compile_attractor_graph`
(src/src/compiler.rs lines 40-72): `validate`, the reject of `exec` nodes
with an absent command, start lookup, entry resolution, exit lookup.  The
StreamWeave graph construction that follows (builder wiring, lines 74-165)
is effect-free topology assembly and is not modelled; this function returns
`ok` exactly when compilation passes all the guards of the source. -/
def compileFront (ast : AttractorGraph) (entry_node_id : Option Str) :
    Except Str Unit :=
  match validate ast with
  | Except.error e => Except.error e
  | Except.ok () =>
    match ast.nodes.find? (fun p =>
        p.2.handler_type == some (str "exec") && p.2.command == none) with
    | some p =>
      Except.error ((str "exec node '") ++ p.1 ++ (str "' requires a command attribute"))
    | none =>
      match ast.findStart with
      | none => Except.error (str "missing start node")
      | some _ =>
        match entry_node_id with
        | some id =>
          if (mapGet ast.nodes id).isSome then
            match ast.findExit with
            | some _ => Except.ok ()
            | none => Except.error (str "missing exit node")
          else
            Except.error ((str "entry node '") ++ id ++ (str "' is not a node in the graph"))
        | none =>
          match ast.findExit with
          | some _ => Except.ok ()
          | none => Except.error (str "missing exit node")

/-- Input for the edge selector (src/src/nodes/select_edge.rs,
`SelectEdgeInput`). -/
structure SelectEdgeInput where
  node_id : Str
  outcome : NodeOutcome
  context : RunContext
  graph : AttractorGraph

/-- Output of the edge selector (src/src/nodes/select_edge.rs,
`SelectEdgeOutput`). -/
structure SelectEdgeOutput where
  next_node_id : Option Str
  done : Bool
deriving DecidableEq, Repr

/-- Models `evaluate_condition` (src/src/nodes/select_edge.rs lines
111-124).  The `_outcome` argument is kept because the source takes it
(unused there as well). -/
def evaluate_condition (cond : Str) (_outcome : NodeOutcome) (context : RunContext) : Bool :=
  let cond := trimBoth cond
  match dropPre (str "outcome=") cond with
  | some stripped =>
    let outcome_str := (ctxGet context (str "outcome")).getD []
    eqIgnoreAsciiCase stripped outcome_str
      || (eqIgnoreAsciiCase stripped (str "success") && outcome_str == str "SUCCESS")
      || (eqIgnoreAsciiCase stripped (str "fail") && outcome_str == str "FAIL")
  | none =>
    match dropPre (str "outcome!=") cond with
    | some stripped =>
      let outcome_str := (ctxGet context (str "outcome")).getD []
      ! eqIgnoreAsciiCase stripped outcome_str
    | none => false

/-- Models `normalize_label` (src/src/nodes/select_edge.rs lines 127-133):
lowercase, trim, strip leading `[` or ASCII letters, then strip leading
`)`, space, `-`. -/
def normalize_label (l : Str) : Str :=
  let l := trimBoth (l.map asciiLower)
  let l := l.dropWhile (fun c => c == '[' || c.isAlpha)
  l.dropWhile (fun c => c == ')' || c == ' ' || c == '-')

/-- Total lexicographic comparison of embedded strings by character code,
modelling Rust `Ord for String` (UTF-8 byte order coincides with scalar
value order). -/
def cmpStr : Str → Str → Ordering
  | [], [] => .eq
  | [], _ :: _ => .lt
  | _ :: _, [] => .gt
  | a :: as', b :: bs =>
    if a.toNat < b.toNat then .lt
    else if b.toNat < a.toNat then .gt
    else cmpStr as' bs

/-- Total comparison of integers, modelling Rust `Ord for i32`. -/
def cmpInt (a b : Int) : Ordering :=
  if a < b then .lt else if a = b then .eq else .gt

/-- Comparator of `best_by_weight_then_lexical` (src/src/nodes/select_edge.rs
lines 138-142): weight descending, then `to_node` ascending. -/
def cmpEdge (a b : AttractorEdge) : Ordering :=
  (cmpInt b.weight a.weight).then (cmpStr a.to_node b.to_node)

/-- Models `best_by_weight_then_lexical` (src/src/nodes/select_edge.rs lines
136-144).  The source stable-sorts by `cmpEdge` and takes element 0; the
first minimum of a stable sort is computed here directly as a left fold that
replaces the accumulator only on strictly smaller elements. -/
def best_by_weight_then_lexical : List AttractorEdge → Option AttractorEdge
  | [] => none
  | e :: es =>
    some (es.foldl (fun acc f => if cmpEdge f acc = .lt then f else acc) e)

/-- Condition-matched outgoing edges: the filter at src/src/nodes/select_edge.rs
lines 45-53. -/
def conditionMatched (input : SelectEdgeInput) : List AttractorEdge :=
  (input.graph.outgoingEdges input.node_id).filter (fun e =>
    match e.condition with
    | some c => evaluate_condition c input.outcome input.context
    | none => false)

/-- Models `select_edge` (src/src/nodes/select_edge.rs lines 36-108):
precedence order is no-edges, condition match, preferred label, suggested
ids, unconditional edges, fallback over all edges. -/
def select_edge (input : SelectEdgeInput) : SelectEdgeOutput :=
  let edges : List AttractorEdge := input.graph.outgoingEdges input.node_id
  if edges.isEmpty then
    { next_node_id := none, done := input.outcome.status == .Success }
  else
    let condition_matched := conditionMatched input
    match best_by_weight_then_lexical condition_matched with
    | some best => { next_node_id := some best.to_node, done := false }
    | none =>
      let fromPreferred : Option Str :=
        match input.outcome.preferred_label with
        | some pref =>
          let normalized_pref := normalize_label pref
          (edges.find? (fun (e : AttractorEdge) =>
            match e.label with
            | some l => normalize_label l == normalized_pref
            | none => false)).map (fun (e : AttractorEdge) => e.to_node)
        | none => none
      match fromPreferred with
      | some t => { next_node_id := some t, done := false }
      | none =>
        let fromSuggested : Option Str :=
          (input.outcome.suggested_next_ids.findSome? (fun sid =>
            (edges.find? (fun (e : AttractorEdge) => e.to_node == sid)).map
              (fun (e : AttractorEdge) => e.to_node)))
        match fromSuggested with
        | some t => { next_node_id := some t, done := false }
        | none =>
          let unconditional := edges.filter (fun e => e.condition == none)
          match best_by_weight_then_lexical unconditional with
          | some best => { next_node_id := some best.to_node, done := false }
          | none =>
            match best_by_weight_then_lexical edges with
            | some best => { next_node_id := some best.to_node, done := false }
            | none => { next_node_id := none, done := false }

/-- Models `build_codergen_outcome` (src/src/nodes/execute_handler.rs lines
49-61). -/
def build_codergen_outcome (node : AttractorNode) : NodeOutcome :=
  { status := .Success
    notes := some ((str "Stage completed: ") ++ node.id)
    failure_reason := none
    context_updates := [((str "last_stage"), node.id)]
    preferred_label := none
    suggested_next_ids := [] }

/-- Input bundle for `execute_handler` (src/src/nodes/execute_handler.rs,
`ExecuteHandlerInput`). -/
structure ExecuteHandlerInput where
  node : AttractorNode
  context : RunContext
  graph : AttractorGraph

/-- Models `execute_handler` (src/src/nodes/execute_handler.rs lines 64-73):
start, exit and codergen handlers plus a success stub for everything else;
never returns an error. -/
def execute_handler (input : ExecuteHandlerInput) : Except Str NodeOutcome :=
  let handler := input.node.handler_type.getD (str "codergen")
  if handler = str "start" then Except.ok (NodeOutcome.success (str "Start"))
  else if handler = str "exit" then Except.ok (NodeOutcome.success (str "Exit"))
  else if handler = str "codergen" then Except.ok (build_codergen_outcome input.node)
  else Except.ok (NodeOutcome.success ((str "Handler ") ++ handler ++ (str " (stub)")))

/-- One recorded step in the execution log
(src/src/types/execution_log.rs, `ExecutionStepEntry`). -/
structure ExecutionStepEntry where
  step : Nat
  node_id : Str
  handler_type : Option Str
  context_before : RunContext
  outcome : NodeOutcome
  context_after : RunContext
  next_node_id : Option Str
  completed_nodes_after : List Str
deriving DecidableEq, Repr

/-- Root structure for execution.log.json
(src/src/types/execution_log.rs, `ExecutionLog`). -/
structure ExecutionLog where
  version : Nat
  goal : Str
  started_at : Str
  finished_at : Option Str
  final_status : Str
  completed_nodes : List Str
  steps : List ExecutionStepEntry
deriving DecidableEq, Repr

/-- Execution state for one step of the Attractor loop
(src/src/types/execution_state.rs, `ExecutionState`). -/
structure ExecutionState where
  graph : AttractorGraph
  context : RunContext
  current_node_id : Str
  completed_nodes : List Str
  node_outcomes : List (Str × NodeOutcome)
  step_log : Option (List ExecutionStepEntry)

/-- Final result of running an Attractor pipeline
(src/src/nodes/execution_loop.rs, `AttractorResult`). -/
structure AttractorResult where
  last_outcome : NodeOutcome
  completed_nodes : List Str
  context : RunContext
deriving DecidableEq, Repr

/-- Result of running the execution loop
(src/src/nodes/execution_loop.rs, `RunLoopResult`). -/
inductive RunLoopResult where
  | ok (r : AttractorResult)
  | err (msg : Str)
deriving DecidableEq, Repr

/-- One iteration body of `run_execution_loop_once`
(src/src/nodes/execution_loop.rs lines 59-102): look the node up, execute
its handler (`unwrap_or_else(NodeOutcome::error)` on failure), merge the
outcome into the context, record completion, select the next edge. -/
def loopIteration (s : ExecutionState) :
    Except Str (NodeOutcome × ExecutionState × Option Str) :=
  match mapGet s.graph.nodes s.current_node_id with
  | none => Except.error ((str "Node not found: ") ++ s.current_node_id)
  | some node =>
    let last_outcome :=
      match execute_handler { node := node, context := s.context, graph := s.graph } with
      | Except.ok o => o
      | Except.error e => NodeOutcome.error e
    let context := apply_context_updates s.context last_outcome
    let completed := s.completed_nodes ++ [s.current_node_id]
    let outcomes := (s.current_node_id, last_outcome) ::
      s.node_outcomes.filter (fun p => ¬ (p.1 = s.current_node_id))
    let s' := { s with
      context := context
      completed_nodes := completed
      node_outcomes := outcomes }
    let sel := select_edge
      { node_id := s.current_node_id
        outcome := last_outcome
        context := context
        graph := s.graph }
    Except.ok (last_outcome, s', sel.next_node_id)

/-- Fuel-indexed body of `run_execution_loop_once`
(src/src/nodes/execution_loop.rs lines 48-104).  `remaining` models
`max_iter - iter`; the source checks the cap before each iteration, so
exhausted fuel returns the hard error.  The second component counts the
iterations actually executed. -/
def runLoopAux : Nat → ExecutionState → RunLoopResult × Nat
  | 0, _ => (.err (str "Max iterations exceeded"), 0)
  | n + 1, s =>
    match loopIteration s with
    | Except.error e => (.err e, 1)
    | Except.ok (last_outcome, s', nextId) =>
      match nextId with
      | some next_id =>
        let (r, k) := runLoopAux n { s' with current_node_id := next_id }
        (r, k + 1)
      | none =>
        (.ok { last_outcome := last_outcome
               completed_nodes := s'.completed_nodes
               context := s'.context }, 1)

/-- Models `run_execution_loop_once` (src/src/nodes/execution_loop.rs lines
48-104): the loop with `max_iter = 1000`. -/
def run_execution_loop_once (s : ExecutionState) : RunLoopResult :=
  (runLoopAux 1000 s).1

/-- Reason the stepwise loop stopped, together with the final state. -/
inductive LoopExit where
  | maxIter
  | notFound (id : Str)
  | noNext (outcome : NodeOutcome) (result : AttractorResult)
deriving DecidableEq, Repr

/-- Modelled from the spec: the log-enabled stepwise loop called at
src/src/runner.rs line 170 takes a per-step callback and records
`ExecutionStepEntry` values into `step_log`; that revision of
`run_execution_loop_once` is not under src/ (src/src/nodes/execution_loop.rs
holds an earlier single-argument revision whose signature does not match the
call, and whose tests expect step recording it does not do).  Following spec
§4.6.1: execute the node, merge updates, append the step entry, call
`select_next`; when `next_id` is absent the loop terminates with success iff
the final outcome is success-like.  Node execution is abstracted by the
handler parameter `H` (the synchronous handlers spawn external processes).
One iteration of that loop: -/
def specStepwiseIter (H : AttractorNode → RunContext → AttractorGraph → NodeOutcome)
    (s : ExecutionState) :
    Except Str (NodeOutcome × ExecutionState × Option Str) :=
  match mapGet s.graph.nodes s.current_node_id with
  | none => Except.error ((str "Node not found: ") ++ s.current_node_id)
  | some node =>
    let last_outcome := H node s.context s.graph
    let context := apply_context_updates s.context last_outcome
    let completed := s.completed_nodes ++ [s.current_node_id]
    let sel := select_edge
      { node_id := s.current_node_id
        outcome := last_outcome
        context := context
        graph := s.graph }
    let entry : ExecutionStepEntry :=
      { step := (s.step_log.getD []).length + 1
        node_id := s.current_node_id
        handler_type := node.handler_type
        context_before := s.context
        outcome := last_outcome
        context_after := context
        next_node_id := sel.next_node_id
        completed_nodes_after := completed }
    let s' := { s with
      context := context
      completed_nodes := completed
      node_outcomes := (s.current_node_id, last_outcome) ::
        s.node_outcomes.filter (fun p => ¬ (p.1 = s.current_node_id))
      step_log := s.step_log.map (fun l => l ++ [entry]) }
    Except.ok (last_outcome, s', sel.next_node_id)

/-- Modelled from the spec: the stepwise loop of spec §4.6.1 (the missing
log-enabled `run_execution_loop_once` revision), with the 1000-iteration
cap of the src/ revision.  Returns why the loop stopped and the state it
stopped in (the per-step partial log writes are file IO and are not
modelled; `step_log` carries the recorded entries). -/
def specStepwiseLoop (H : AttractorNode → RunContext → AttractorGraph → NodeOutcome) :
    Nat → ExecutionState → LoopExit × ExecutionState
  | 0, s => (.maxIter, s)
  | n + 1, s =>
    match specStepwiseIter H s with
    | Except.error _ => (.notFound s.current_node_id, s)
    | Except.ok (last_outcome, s', nextId) =>
      match nextId with
      | some next_id => specStepwiseLoop H n { s' with current_node_id := next_id }
      | none =>
        (.noNext last_outcome
          { last_outcome := last_outcome
            completed_nodes := s'.completed_nodes
            context := s'.context }, s')

/-- Modelled from the spec: translation of a loop exit into the loop's
result (spec §4.6.1 steps 1 and 5: missing node and iteration cap are hard
errors; a no-next exit succeeds iff the final outcome is success-like, and
on an error outcome the error is returned — the spec does not fix the error
message, the outcome's `failure_reason` stands in for it). -/
def specStepwiseResult : LoopExit → Except Str AttractorResult
  | .maxIter => Except.error (str "Max iterations exceeded")
  | .notFound id => Except.error ((str "Node not found: ") ++ id)
  | .noNext o r =>
    if isSuccessLike o.status then Except.ok r
    else Except.error (o.failure_reason.getD (str "error"))

/-- Models `write_execution_log` (src/src/runner.rs lines 70-91) without the
filesystem write: the constructed `ExecutionLog` value.  The `finished_at`
timestamp (`chrono::Utc::now`) is passed in as `now`. -/
def writeExecutionLog (goal started_at now : Str) (final_status : Str)
    (completed_nodes : List Str) (steps : List ExecutionStepEntry) : ExecutionLog :=
  { version := 1
    goal := goal
    started_at := started_at
    finished_at := some now
    final_status := final_status
    completed_nodes := completed_nodes
    steps := steps }

/-- Models the log-enabled arm of `run_compiled_graph` (src/src/runner.rs
lines 170-189), over the spec-modelled stepwise loop: on loop success the
final log carries `final_status = "success"` and the result is returned; on
loop error the final log carries `final_status = "error"` and the error is
returned. -/
def runCompiledGraphStepwise
    (H : AttractorNode → RunContext → AttractorGraph → NodeOutcome)
    (fuel : Nat) (state : ExecutionState) (goal started_at now : Str) :
    ExecutionLog × Except Str AttractorResult :=
  let (ex, st) := specStepwiseLoop H fuel state
  match specStepwiseResult ex with
  | Except.ok result =>
    (writeExecutionLog goal started_at now (str "success")
      result.completed_nodes (st.step_log.getD []), Except.ok result)
  | Except.error e =>
    (writeExecutionLog goal started_at now (str "error")
      st.completed_nodes (st.step_log.getD []), Except.error e)

/-- Exit status of the spawned `sh -c <command>` process: Rust
`std::process::ExitStatus`, where `code()` is `some n` after a normal exit
and `none` after termination by a signal. -/
inductive ExitStatus where
  | exited (code : Int)
  | signaled
deriving DecidableEq, Repr

/-- Models `ExitStatus::success`: a normal exit with code 0. -/
def ExitStatus.isSuccess : ExitStatus → Bool
  | .exited n => n == 0
  | .signaled => false

/-- Models `ExitStatus::code`. -/
def ExitStatus.code : ExitStatus → Option Int
  | .exited n => some n
  | .signaled => none

/-- Result of `Command::new("sh").arg("-c").arg(&c).output()`: the exit
status, or a spawn error with its rendered message. -/
inductive CommandResult where
  | ran (status : ExitStatus)
  | ioError (msg : Str)
deriving DecidableEq, Repr

/-- Models the outcome computation of `ExecNode::execute`
(src/src/nodes/exec_node.rs lines 86-100): exit 0 gives
`NodeOutcome::success("ok")`; any other exit gives
`NodeOutcome::error(format!("exit {}", code().unwrap_or(-1)))`; a spawn
error gives `NodeOutcome::error` of the rendered error. -/
def execNodeOutcome : CommandResult → NodeOutcome
  | .ran st =>
    if st.isSuccess then NodeOutcome.success (str "ok")
    else NodeOutcome.error ((str "exit ") ++ (toString (st.code.getD (-1))).data)
  | .ioError e => NodeOutcome.error e

/-- Output ports of an ExecNode. -/
inductive ExecPort where
  | out
  | error
deriving DecidableEq, Repr

/-- Models the port routing of `ExecNode::execute` (src/src/nodes/exec_node.rs
lines 101-122): the payload goes to `out` when the outcome status is
`Success` or `PartialSuccess`, else to `error`. -/
def execNodePort (outcome : NodeOutcome) : ExecPort :=
  if outcome.status == .Success || outcome.status == .PartialSuccess then .out
  else .error

/-- Models the context carried by the payload an ExecNode emits
(src/src/nodes/exec_node.rs lines 101-110): `apply_updates` of the incoming
context with the command outcome. -/
def execNodeContext (context : RunContext) (r : CommandResult) : RunContext :=
  apply_updates context (execNodeOutcome r)

/-- Result of a fallible parser step.  `panic` models a Rust panic (an
out-of-range slice index); `nofuel` is an artifact of the fuel-indexed
translation of the source's `while` loops and is never reached when the fuel
exceeds the input length. -/
inductive PRes (α : Type) where
  | ok (a : α)
  | err (e : Str)
  | panic
  | nofuel
deriving DecidableEq, Repr

/-- Tests whether a parser step succeeded. -/
def PRes.isOk : PRes α → Bool
  | .ok _ => true
  | _ => false

/-- Skips past the body of a `/* */` comment, modelling the inner scan of
`strip_comments` (src/src/dot_parser.rs lines 53-61): the input starts just
after `/*`; on a terminated comment the remainder after `*/` is returned; on
an unterminated comment the source's scan stops at the last byte, which the
main loop then emits unchanged, so the last character is kept. -/
def stripBlock : Str → Str
  | [] => []
  | [c] => [c]
  | a :: b :: rest => if a = '*' ∧ b = '/' then rest else stripBlock (b :: rest)

/-- Fuel-indexed body of `strip_comments` (src/src/dot_parser.rs lines
42-67); every step consumes at least one input character, so fuel equal to
the input length plus one is never exhausted. -/
def stripCommentsAux : Nat → Str → Str
  | 0, _ => []
  | _ + 1, [] => []
  | _ + 1, [c] => [c]
  | fuel + 1, a :: b :: rest =>
    if a = '/' ∧ b = '/' then
      stripCommentsAux fuel (rest.dropWhile (fun c => ¬ (c = '\n')))
    else if a = '/' ∧ b = '*' then
      stripCommentsAux fuel (stripBlock rest)
    else
      a :: stripCommentsAux fuel (b :: rest)

/-- Models `strip_comments` (src/src/dot_parser.rs lines 42-67): removes
`//` line comments (keeping the newline) and `/* */` block comments. -/
def strip_comments (l : Str) : Str := stripCommentsAux (l.length + 1) l

/-- Start character of an identifier (`is_ascii_alphabetic` or `_`). -/
def isIdentStart (c : Char) : Bool := c.isAlpha || c == '_'

/-- Continuation character of an identifier (`is_ascii_alphanumeric` or `_`). -/
def isIdentChar (c : Char) : Bool := c.isAlphanum || c == '_'

/-- Models `parse_identifier` (src/src/dot_parser.rs lines 70-84): trim, seek
the first identifier-start character (`find(..).unwrap_or(0)` — characters
before it are silently skipped), take the alphanumeric/underscore run, fail
when the run is empty. -/
def parse_identifier (s : Str) : Option (Str × Str) :=
  let s := trimL s
  let start := (s.findIdx? isIdentStart).getD 0
  let tok := (s.drop start).takeWhile isIdentChar
  if tok.isEmpty then none else some (tok, s.drop (start + tok.length))

/-- Models `parse_number` (src/src/dot_parser.rs lines 218-232): an optional
leading `-` followed by ASCII digits; any nonempty consumed span is returned
(so a bare `-` parses as the string `-`). -/
def parse_number (s : Str) : Option (Str × Str) :=
  let s := trimL s
  match s with
  | '-' :: rest =>
    let ds := rest.takeWhile Char.isDigit
    some ('-' :: ds, rest.drop ds.length)
  | _ =>
    let ds := s.takeWhile Char.isDigit
    if ds.isEmpty then none else some (ds, s.drop ds.length)

/-- Models one `str::replace` call with a two-character pattern: leftmost
match first, non-overlapping, scanning resumes after the replacement. -/
def replacePair (a b : Char) (r : Str) : Str → Str
  | x :: y :: rest =>
    if x = a ∧ y = b then r ++ replacePair a b r rest
    else x :: replacePair a b r (y :: rest)
  | l => l

/-- Models `unescape_quoted_string` (src/src/dot_parser.rs lines 184-189):
the four sequential `replace` calls, in source order. -/
def unescape_quoted_string (s : Str) : Str :=
  replacePair '\\' '\\' ['\\']
    (replacePair '\\' '\"' ['\"']
      (replacePair '\\' 't' ['\t']
        (replacePair '\\' 'n' ['\n'] s)))

/-- Scans a double-quoted value body, modelling the index loop of
`parse_value` (src/src/dot_parser.rs lines 195-206): the input starts after
the opening quote; an escape skips two characters; the scan stops at an
unescaped `"`.  Returns the raw span and the remainder after the closing
quote, or `none` when the closing quote is missing — in which case the
source evaluates `&s[end + 1..]` with `end = s.len()`, an out-of-range
slice, i.e. a panic. -/
def scanQuoted : Str → Option (Str × Str)
  | [] => none
  | '\\' :: c :: rest => (scanQuoted rest).map (fun p => ('\\' :: c :: p.1, p.2))
  | '\"' :: rest => some ([], rest)
  | c :: rest => (scanQuoted rest).map (fun p => (c :: p.1, p.2))

/-- Models `parse_value` (src/src/dot_parser.rs lines 192-215): a quoted
string (`PRes.panic` on a missing closing quote, per `scanQuoted`), else a
number, else an identifier. -/
def parse_value (s : Str) : PRes (Str × Str) :=
  let s := trimL s
  match s with
  | '\"' :: rest =>
    match scanQuoted rest with
    | none => .panic
    | some (raw, r) => .ok (unescape_quoted_string raw, trimL r)
  | _ =>
    match parse_number s with
    | some (num, rest) => .ok (num, rest)
    | none =>
      match parse_identifier s with
      | some (id, rest) => .ok (id, rest)
      | none => .err (str "Expected value")

/-- Loop of `parse_attr_block` (src/src/dot_parser.rs lines 171-178),
fuel-indexed: parse `key = value` pairs until a `]`, stripping commas. -/
def attrLoop : Nat → List (Str × Str) → Str → PRes (List (Str × Str) × Str)
  | 0, _, _ => .nofuel
  | fuel + 1, attrs, remaining =>
    match remaining with
    | ']' :: rest => .ok (attrs, trimL rest)
    | _ =>
      match parse_identifier remaining with
      | none => .err (str "Expected attribute key")
      | some (k, rest) =>
        match trimL rest with
        | '=' :: rest2 =>
          match parse_value (trimL rest2) with
          | .ok (v, rest3) =>
            attrLoop fuel (attrs ++ [(k, v)]) ((trimL rest3).dropWhile (fun c => c = ','))
          | .err e => .err e
          | .panic => .panic
          | .nofuel => .nofuel
        | _ => .err (str "Expected '='")

/-- Models `parse_attr_block` (src/src/dot_parser.rs lines 168-181). -/
def parse_attr_block (fuel : Nat) (s : Str) : PRes (List (Str × Str) × Str) :=
  match trimL s with
  | '[' :: rest => attrLoop fuel [] (trimL rest)
  | _ => .err (str "Expected '['")

/-- Models `resolve_handler_from_shape` (src/src/dot_parser.rs lines
269-285): exact (case-sensitive) shape match, defaulting to `codergen`. -/
def resolve_handler_from_shape (shape : Str) : Option Str :=
  some (
    if shape = str "Mdiamond" then str "start"
    else if shape = str "Msquare" then str "exit"
    else if shape = str "box" then str "codergen"
    else if shape = str "hexagon" then str "wait.human"
    else if shape = str "diamond" then str "conditional"
    else if shape = str "component" then str "parallel"
    else if shape = str "tripleoctagon" then str "parallel.fan_in"
    else if shape = str "parallelogram" then str "tool"
    else if shape = str "house" then str "stack.manager_loop"
    else str "codergen")

/-- Models `u32::from_str` as used by `v.parse::<u32>()`: optional leading
`+`, then one or more ASCII digits (overflow is not modelled; the inputs of
interest are small). -/
def parseU32 (s : Str) : Option Nat :=
  let ds := match s with
    | '+' :: rest => rest
    | l => l
  if ds.isEmpty ∨ ¬ (ds.all Char.isDigit) then none
  else some (ds.foldl (fun n c => n * 10 + (c.toNat - 48)) 0)

/-- Models `i32::from_str` as used by `v.parse::<i32>()`: optional sign then
digits (overflow not modelled). -/
def parseI32 (s : Str) : Option Int :=
  match s with
  | '-' :: rest => (parseU32 rest).map (fun n => -(n : Int))
  | _ => (parseU32 s).map (fun n => (n : Int))

/-- Models `parse_node_attrs` (src/src/dot_parser.rs lines 235-266).  The
recognized keys are `shape`, `type`, `label`, `prompt`, `goal_gate` and
`max_retries`; every other key — including `command` — is dropped by the
catch-all arm, and the struct literal at lines 257-265 carries no `command`
field, so the built node's `command` is `none`. -/
def parse_node_attrs (id : Str) (attrs : List (Str × Str)) : Except Str AttractorNode :=
  let st := attrs.foldl
    (fun (acc : Str × Option Str × Option Str × Option Str × Bool × Nat) kv =>
      let (shape, handler_type, label, prompt, goal_gate, max_retries) := acc
      if kv.1 = str "shape" then (kv.2, handler_type, label, prompt, goal_gate, max_retries)
      else if kv.1 = str "type" then (shape, some kv.2, label, prompt, goal_gate, max_retries)
      else if kv.1 = str "label" then (shape, handler_type, some kv.2, prompt, goal_gate, max_retries)
      else if kv.1 = str "prompt" then (shape, handler_type, label, some kv.2, goal_gate, max_retries)
      else if kv.1 = str "goal_gate" then
        (shape, handler_type, label, prompt, eqIgnoreAsciiCase kv.2 (str "true"), max_retries)
      else if kv.1 = str "max_retries" then
        (shape, handler_type, label, prompt, goal_gate, (parseU32 kv.2).getD 0)
      else acc)
    (str "box", none, some id, none, false, 0)
  let (shape, handler_type, label, prompt, goal_gate, max_retries) := st
  Except.ok
    { id := id
      shape := shape
      handler_type := handler_type.orElse (fun _ => resolve_handler_from_shape shape)
      label := label
      prompt := prompt
      command := none
      goal_gate := goal_gate
      max_retries := max_retries }

/-- Models `apply_graph_attrs` (src/src/dot_parser.rs lines 126-134). -/
def apply_graph_attrs (attrs : List (Str × Str)) (graph : AttractorGraph) : AttractorGraph :=
  attrs.foldl
    (fun g kv =>
      if kv.1 = str "goal" then { g with goal := kv.2 }
      else if kv.1 = str "default_max_retry" then
        { g with default_max_retry := (parseU32 kv.2).getD 50 }
      else g)
    graph

/-- Models `extract_edge_attrs` (src/src/dot_parser.rs lines 148-165). -/
def extract_edge_attrs (attrs : List (Str × Str)) : Option Str × Option Str × Int :=
  let label := (attrs.find? (fun kv => kv.1 == str "label")).map (·.2)
  let condition := (attrs.find? (fun kv => kv.1 == str "condition")).map (·.2)
  let weight := ((attrs.find? (fun kv => kv.1 == str "weight")).bind (fun kv => parseI32 kv.2)).getD 0
  (label, condition, weight)

/-- Depth scan of `skip_attr_block` (src/src/dot_parser.rs lines 338-350),
starting at the found `[`. -/
def skipBracketAux : Int → Str → Option Str
  | _, [] => none
  | depth, '[' :: rest => skipBracketAux (depth + 1) rest
  | depth, ']' :: rest => if depth - 1 = 0 then some rest else skipBracketAux (depth - 1) rest
  | depth, _ :: rest => skipBracketAux depth rest

/-- Models `skip_attr_block` (src/src/dot_parser.rs lines 334-352): skip a
balanced `[...]` block and return the remainder. -/
def skip_attr_block (s : Str) : PRes Str :=
  let s := trimL s
  let rest := s.dropWhile (fun c => ¬ (c = '['))
  if rest.isEmpty then .err (str "Expected '['")
  else
    match skipBracketAux 0 rest with
    | some r => .ok r
    | none => .err (str "Unclosed attribute block")

/-- Models `skip_assign` (src/src/dot_parser.rs lines 355-360), including
the source's index arithmetic — `end` is an index into the trimmed tail but
is applied to the untrimmed one, so a `;` preceded by whitespace after the
`=` is not consumed. -/
def skip_assign (s : Str) : PRes Str :=
  match s.findIdx? (fun c => c = '=') with
  | none => .err (str "Expected '='")
  | some i =>
    let rest := trimL (s.drop (i + 1))
    let e := match rest.findIdx? (fun c => c = ';') with
      | some j => j + 1
      | none => rest.length
    .ok (s.drop (i + 1 + e))

/-- Depth scan of `skip_subgraph` (src/src/dot_parser.rs lines 363-379),
starting at the found opening brace. -/
def skipBraceAux : Int → Str → Option Str
  | _, [] => none
  | depth, c :: rest =>
    if c = '\x7b' then skipBraceAux (depth + 1) rest
    else if c = '\x7d' then
      (if depth - 1 = 0 then some rest else skipBraceAux (depth - 1) rest)
    else skipBraceAux depth rest

/-- Models `skip_subgraph` (src/src/dot_parser.rs lines 363-379): skip a
balanced brace block and return the remainder. -/
def skip_subgraph (s : Str) : PRes Str :=
  let rest := s.dropWhile (fun c => ¬ (c = '\x7b'))
  if rest.isEmpty then .err (str "Expected '\x7b'")
  else
    match skipBraceAux 0 rest with
    | some r => .ok r
    | none => .err (str "Unclosed subgraph")

/-- Appends the chain edges of an edge statement (src/src/dot_parser.rs
lines 302-312 and 316-326): one edge per consecutive pair, each receiving a
copy of the same attributes. -/
def pushChainEdges (graph : AttractorGraph) (from_node : Str) (targets : List Str)
    (label condition : Option Str) (weight : Int) : AttractorGraph :=
  let step := targets.foldl
    (fun (acc : AttractorGraph × Str) t =>
      ({ acc.1 with edges := acc.1.edges ++
          [{ from_node := acc.2, to_node := t, label := label,
             condition := condition, weight := weight }] }, t))
    (graph, from_node)
  step.1

/-- Models the target-chain loop of `parse_edge_stmt`
(src/src/dot_parser.rs lines 288-331), fuel-indexed; `s` starts after the
leading `->` has been consumed and trimmed. -/
def edgeLoop : Nat → Str → List Str → Str → AttractorGraph → PRes (AttractorGraph × Str)
  | 0, _, _, _, _ => .nofuel
  | fuel + 1, from_node, targets, s, graph =>
    match parse_identifier s with
    | none => .err (str "Expected target node")
    | some (toId, rest) =>
      let targets := targets ++ [toId]
      let rest := trimL rest
      match rest with
      | '[' :: _ =>
        match parse_attr_block (fuel + 1) rest with
        | .ok (attrs, rest2) =>
          let (label, condition, weight) := extract_edge_attrs attrs
          let graph := pushChainEdges graph from_node targets label condition weight
          .ok (graph, (trimL rest2).dropWhile (fun c => c = ';'))
        | .err e => .err e
        | .panic => .panic
        | .nofuel => .nofuel
      | _ =>
        if (str "->").isPrefixOf rest then
          edgeLoop fuel from_node targets (trimL (rest.drop 2)) graph
        else
          .ok (pushChainEdges graph from_node targets none none 0, rest)

/-- Models `parse_edge_stmt` (src/src/dot_parser.rs lines 288-331): `s`
starts at the `->` following the source identifier. -/
def parse_edge_stmt (fuel : Nat) (from_node : Str) (s : Str) (graph : AttractorGraph) :
    PRes (AttractorGraph × Str) :=
  edgeLoop fuel from_node [] (trimL (s.drop 2)) graph

/-- Models `parse_statement` (src/src/dot_parser.rs lines 87-123): one graph
statement; returns the updated graph and the unconsumed remainder. -/
def parse_statement (fuel : Nat) (s : Str) (graph : AttractorGraph) :
    PRes (AttractorGraph × Str) :=
  let s := trimL s
  if (str "\x7d").isPrefixOf s then .ok (graph, s)
  else if (str "graph").isPrefixOf s then
    match parse_attr_block fuel (trimL (s.drop 5)) with
    | .ok (attrs, rest) =>
      .ok (apply_graph_attrs attrs graph, (trimL rest).dropWhile (fun c => c = ';'))
    | .err e => .err e
    | .panic => .panic
    | .nofuel => .nofuel
  else if (str "node").isPrefixOf s then
    match skip_attr_block s with
    | .ok r => .ok (graph, r)
    | .err e => .err e
    | .panic => .panic
    | .nofuel => .nofuel
  else if (str "edge").isPrefixOf s then
    match skip_attr_block s with
    | .ok r => .ok (graph, r)
    | .err e => .err e
    | .panic => .panic
    | .nofuel => .nofuel
  else if (str "rankdir").isPrefixOf s then
    match skip_assign s with
    | .ok r => .ok (graph, r)
    | .err e => .err e
    | .panic => .panic
    | .nofuel => .nofuel
  else if (str "subgraph").isPrefixOf s then
    match skip_subgraph s with
    | .ok r => .ok (graph, r)
    | .err e => .err e
    | .panic => .panic
    | .nofuel => .nofuel
  else
    match parse_identifier s with
    | none => .err (str "Expected identifier")
    | some (id, rest) =>
      let rest := trimL rest
      match rest with
      | '[' :: _ =>
        match parse_attr_block fuel rest with
        | .ok (attrs, rest2) =>
          match parse_node_attrs id attrs with
          | Except.ok node =>
            .ok ({ graph with nodes := mapInsert graph.nodes id node },
              (trimL rest2).dropWhile (fun c => c = ';'))
          | Except.error e => .err e
        | .err e => .err e
        | .panic => .panic
        | .nofuel => .nofuel
      | _ =>
        if (str "->").isPrefixOf rest then
          parse_edge_stmt fuel id rest graph
        else
          .ok (graph, (trimL rest).dropWhile (fun c => c = ';'))

/-- Statement loop of `parse_dot` (src/src/dot_parser.rs lines 32-36),
fuel-indexed. -/
def parseDotLoop : Nat → Str → AttractorGraph → PRes AttractorGraph
  | 0, _, _ => .nofuel
  | fuel + 1, remaining, graph =>
    if remaining.isEmpty ∨ (str "\x7d").isPrefixOf remaining then .ok graph
    else
      match parse_statement (fuel + 1) remaining graph with
      | .ok (graph, rest) => parseDotLoop fuel (trimBoth rest) graph
      | .err e => .err e
      | .panic => .panic
      | .nofuel => .nofuel

/-- Models `parse_dot` (src/src/dot_parser.rs lines 9-39): strip comments,
require the `digraph NAME {` envelope, then run the statement loop.  The
fuel is the input length plus one, which the statement loop (whose source
counterpart terminates by consuming input or failing) never exhausts on the
inputs evaluated below. -/
def parse_dot (source : Str) : PRes AttractorGraph :=
  let source := trimBoth (strip_comments source)
  if ¬ (str "digraph").isPrefixOf source then .err (str "Expected 'digraph' at start")
  else
    let rest := trimL (source.drop 7)
    match parse_identifier rest with
    | none => .err (str "Expected graph name")
    | some (_name, rest) =>
      match trimL rest with
      | '\x7b' :: rest =>
        parseDotLoop (source.length + 1) (trimBoth rest)
          { goal := [], nodes := [], edges := [], default_max_retry := 50 }
      | _ => .err (str "Expected '\x7b' after graph name")

/-- A one-node graph whose only edge loops back to the node — the cyclic
input of the C9 cap example. -/
def cycNode : AttractorNode :=
  AttractorNode.mk (str "a") (str "box") (some (str "codergen")) none none none false 0

/-- The one-node cyclic graph. -/
def cycGraph : AttractorGraph :=
  AttractorGraph.mk (str "g") [((str "a"), cycNode)]
    [AttractorEdge.mk (str "a") (str "a") none none 0] 50

/-- Loop state positioned on the cyclic node. -/
def mkCycState (ctx : RunContext) (comp : List Str) (oc : List (Str × NodeOutcome)) :
    ExecutionState :=
  ⟨cycGraph, ctx, str "a", comp, oc, none⟩

/-! Helper lemmas about context lookup. -/

/-- Lookup after inserting the same key. -/
theorem ctxGet_insert_same (m : RunContext) (k v : Str) :
    ctxGet (ctxInsert m k v) k = some v := by
  simp [ctxGet, ctxInsert, List.find?]

/-- Lookup after inserting a different key. -/
theorem ctxGet_insert_diff (m : RunContext) (k v k' : Str) (h : k' ≠ k) :
    ctxGet (ctxInsert m k v) k' = ctxGet m k' := by
  simp only [ctxGet, ctxInsert, List.find?]
  have : (k == k') = false := by
    simp only [beq_eq_false_iff_ne, ne_eq]
    exact fun e => h e.symm
  simp [this]

/-- Lookup is unchanged by folding in updates that never bind the key. -/
theorem ctxGet_fold_not_mem (k : Str) :
    ∀ (updates : List (Str × Str)) (ctx : RunContext),
      (∀ p ∈ updates, p.1 ≠ k) →
      ctxGet (updates.foldl (fun m p => ctxInsert m p.1 p.2) ctx) k = ctxGet ctx k
  | [], ctx, _ => rfl
  | p :: rest, ctx, h => by
    have hp : p.1 ≠ k := h p (List.mem_cons_self p rest)
    have hrest : ∀ q ∈ rest, q.1 ≠ k := fun q hq => h q (List.mem_cons_of_mem p hq)
    simp only [List.foldl_cons]
    rw [ctxGet_fold_not_mem k rest (ctxInsert ctx p.1 p.2) hrest]
    exact ctxGet_insert_diff ctx p.1 p.2 k (fun e => hp e.symm)

/-- Shared shape of `apply_updates` and `apply_context_updates`: the value
under `"outcome"` after the merge. -/
theorem apply_updates_outcome_key (ctx : RunContext) (o : NodeOutcome) :
    ctxGet (apply_updates ctx o) (str "outcome") = some (statusDebug o.status) := by
  unfold apply_updates
  cases o.preferred_label with
  | none => exact ctxGet_insert_same _ _ _
  | some l =>
    rw [ctxGet_insert_diff _ _ _ _ (by decide)]
    exact ctxGet_insert_same _ _ _

/-- Keys outside the updates and the reserved pair are preserved by
`apply_updates`. -/
theorem apply_updates_preserves (ctx : RunContext) (o : NodeOutcome) (k : Str)
    (hupd : ∀ p ∈ o.context_updates, p.1 ≠ k)
    (hout : k ≠ str "outcome") (hpref : k ≠ str "preferred_label") :
    ctxGet (apply_updates ctx o) k = ctxGet ctx k := by
  unfold apply_updates
  cases o.preferred_label with
  | none =>
    rw [ctxGet_insert_diff _ _ _ _ hout]
    exact ctxGet_fold_not_mem k o.context_updates ctx hupd
  | some l =>
    rw [ctxGet_insert_diff _ _ _ _ hpref, ctxGet_insert_diff _ _ _ _ hout]
    exact ctxGet_fold_not_mem k o.context_updates ctx hupd

/-- Restatement of the two lemmas above for the textually identical loop
variant `apply_context_updates`. -/
theorem apply_context_updates_eq_apply_updates (ctx : RunContext) (o : NodeOutcome) :
    apply_context_updates ctx o = apply_updates ctx o := rfl

/-- C2, counterexample.  The claim says the `"outcome"` key holds the
stringified status, "exactly one of success, partial_success, error,
retry".  Merging a plain success outcome into the empty context stores
`"Success"` — the `format!("{:?}", ..)` Debug form — which is none of the
four lowercase Display forms. -/
theorem c2_counterexample :
    ctxGet (apply_updates [] (NodeOutcome.success (str "ok"))) (str "outcome") =
      some (str "Success") ∧
    ¬ (str "Success" = str "success") ∧
    ¬ (str "Success" = str "partial_success") ∧
    ¬ (str "Success" = str "error") ∧
    ¬ (str "Success" = str "retry") ∧
    statusDisplay OutcomeStatus.Success = str "success" := by
  decide

/-- C2, amended.  After every merge (`apply_updates` of the node variants
and `apply_context_updates` of the stepwise loop — the two bodies are
identical), the context's `"outcome"` key equals the Debug-stringified
status, exactly one of `"Success"`, `"PartialSuccess"`, `"Error"`,
`"Retry"`; the `Display` implementation produces the lowercase spec forms
but the merge functions format with `{:?}`. -/
theorem c2_outcome_key_is_debug_status (ctx : RunContext) (o : NodeOutcome) :
    ctxGet (apply_updates ctx o) (str "outcome") = some (statusDebug o.status) ∧
    ctxGet (apply_context_updates ctx o) (str "outcome") = some (statusDebug o.status) ∧
    (statusDebug o.status = str "Success" ∨ statusDebug o.status = str "PartialSuccess" ∨
      statusDebug o.status = str "Error" ∨ statusDebug o.status = str "Retry") := by
  refine ⟨apply_updates_outcome_key ctx o, ?_, ?_⟩
  · rw [apply_context_updates_eq_apply_updates]
    exact apply_updates_outcome_key ctx o
  · cases o.status <;> simp [statusDebug]

/-- C10.  Merging any outcome into any run context (`apply_updates`, and the
identical `apply_context_updates` of the stepwise loop) leaves the
`"outcome"` key equal to the status string the code writes (the
`format!("{:?}", ..)` form) even when `context_updates` itself binds
`"outcome"` — the updates are folded in first and the status insert follows
— and every key not bound in `context_updates` and different from the
reserved keys `"outcome"` and `"preferred_label"` keeps its previous
value. -/
theorem c10_reserved_key_invariant (ctx : RunContext) (o : NodeOutcome) (k : Str)
    (hupd : ∀ p ∈ o.context_updates, p.1 ≠ k)
    (hout : k ≠ str "outcome") (hpref : k ≠ str "preferred_label") :
    ctxGet (apply_updates ctx o) (str "outcome") = some (statusDebug o.status) ∧
    ctxGet (apply_context_updates ctx o) (str "outcome") = some (statusDebug o.status) ∧
    ctxGet (apply_updates ctx o) k = ctxGet ctx k ∧
    ctxGet (apply_context_updates ctx o) k = ctxGet ctx k := by
  refine ⟨apply_updates_outcome_key ctx o, ?_, ?_, ?_⟩
  · rw [apply_context_updates_eq_apply_updates]
    exact apply_updates_outcome_key ctx o
  · exact apply_updates_preserves ctx o k hupd hout hpref
  · rw [apply_context_updates_eq_apply_updates]
    exact apply_updates_preserves ctx o k hupd hout hpref

/-- C10, witness: an outcome whose `context_updates` binds `"outcome"` to
`"hacked"` still leaves `"outcome" = "Success"` after the merge, and the
untouched key `"y"` keeps its value. -/
theorem c10_reserved_key_invariant_witness :
    ctxGet
      (apply_updates [((str "y"), (str "2"))]
        { status := .Success, notes := none, failure_reason := none
          context_updates := [((str "outcome"), (str "hacked")), ((str "x"), (str "1"))]
          preferred_label := none, suggested_next_ids := [] })
      (str "outcome") = some (str "Success") ∧
    ctxGet
      (apply_updates [((str "y"), (str "2"))]
        { status := .Success, notes := none, failure_reason := none
          context_updates := [((str "outcome"), (str "hacked")), ((str "x"), (str "1"))]
          preferred_label := none, suggested_next_ids := [] })
      (str "y") = some (str "2") := by
  have h := c10_reserved_key_invariant [((str "y"), (str "2"))]
    { status := .Success, notes := none, failure_reason := none
      context_updates := [((str "outcome"), (str "hacked")), ((str "x"), (str "1"))]
      preferred_label := none, suggested_next_ids := [] }
    (str "y") (by decide) (by decide) (by decide)
  refine ⟨h.1, ?_⟩
  rw [h.2.2.1]
  decide

/-! Helper lemmas about prefix stripping. -/

/-- A list is a prefix of itself followed by anything. -/
theorem isPrefixOf_append_self : ∀ (p v : Str), p.isPrefixOf (p ++ v) = true
  | [], _ => by simp [List.isPrefixOf]
  | c :: p, v => by
    simp only [List.cons_append, List.isPrefixOf_cons₂_self]
    exact isPrefixOf_append_self p v

/-- Stripping a prefix off itself followed by a tail yields the tail. -/
theorem dropPre_append (p v : Str) : dropPre p (p ++ v) = some v := by
  simp [dropPre, isPrefixOf_append_self, List.drop_left]

/-- Characterization of successful prefix stripping. -/
theorem dropPre_eq_some_iff (p l v : Str) : dropPre p l = some v ↔ l = p ++ v := by
  constructor
  · intro h
    simp only [dropPre] at h
    split at h
    next hp =>
      obtain ⟨t, ht⟩ := List.isPrefixOf_iff_prefix.mp hp
      subst ht
      simp only [List.drop_left, Option.some.injEq] at h
      rw [h]
    next => cases h
  · intro h
    subst h
    exact dropPre_append p v

/-- C6.  Semantics of `evaluate_condition`: a trimmed condition
`outcome=<value>` is true iff the context's current `"outcome"` value
(empty when absent) equals `<value>` ASCII-case-insensitively — the
source's extra `SUCCESS`/`FAIL` clauses are absorbed by the
case-insensitive comparison; a trimmed `outcome!=<value>` is true iff the
current value differs case-insensitively; any other form is false. -/
theorem c6_evaluate_condition_semantics (cond : Str) (o : NodeOutcome) (ctx : RunContext) :
    (∀ v : Str, trimBoth cond = (str "outcome=") ++ v →
      (evaluate_condition cond o ctx = true ↔
        eqIgnoreAsciiCase v ((ctxGet ctx (str "outcome")).getD []) = true)) ∧
    (∀ v : Str, trimBoth cond = (str "outcome!=") ++ v →
      (evaluate_condition cond o ctx = true ↔
        ¬ (eqIgnoreAsciiCase v ((ctxGet ctx (str "outcome")).getD []) = true))) ∧
    ((∀ v : Str, trimBoth cond ≠ (str "outcome=") ++ v) →
      (∀ v : Str, trimBoth cond ≠ (str "outcome!=") ++ v) →
      evaluate_condition cond o ctx = false) := by
  refine ⟨?_, ?_, ?_⟩
  · intro v h
    unfold evaluate_condition
    rw [h]
    simp only [dropPre_append, Bool.or_eq_true, Bool.and_eq_true, beq_iff_eq]
    constructor
    · intro hh
      rcases hh with (h1 | ⟨h1, h2⟩) | ⟨h1, h2⟩
      · exact h1
      · simp only [eqIgnoreAsciiCase, beq_iff_eq] at h1 ⊢
        rw [h2, h1]
        decide
      · simp only [eqIgnoreAsciiCase, beq_iff_eq] at h1 ⊢
        rw [h2, h1]
        decide
    · intro h1
      exact Or.inl (Or.inl h1)
  · intro v h
    unfold evaluate_condition
    rw [h]
    have hne : dropPre (str "outcome=") ((str "outcome!=") ++ v) = none := by
      have e1 : str "outcome=" = 'o' :: 'u' :: 't' :: 'c' :: 'o' :: 'm' :: 'e' :: '=' :: [] := rfl
      have e2 : str "outcome!=" = 'o' :: 'u' :: 't' :: 'c' :: 'o' :: 'm' :: 'e' :: '!' :: '=' :: [] := rfl
      rw [dropPre, e1, e2]
      simp [List.isPrefixOf]
    simp only [hne, dropPre_append]
    simp
  · intro h1 h2
    unfold evaluate_condition
    have e1 : dropPre (str "outcome=") (trimBoth cond) = none := by
      cases he : dropPre (str "outcome=") (trimBoth cond) with
      | none => rfl
      | some w => exact absurd ((dropPre_eq_some_iff _ _ _).mp he) (h1 w)
    have e2 : dropPre (str "outcome!=") (trimBoth cond) = none := by
      cases he : dropPre (str "outcome!=") (trimBoth cond) with
      | none => rfl
      | some w => exact absurd ((dropPre_eq_some_iff _ _ _).mp he) (h2 w)
    simp only [e1, e2]

/-- C6, witness: ` outcome=success ` (note the whitespace and the uppercase
context value) evaluates true against a context whose outcome is
`SUCCESS`. -/
theorem c6_evaluate_condition_semantics_witness :
    evaluate_condition (str " outcome=success ") (NodeOutcome.success (str "ok"))
      [((str "outcome"), (str "SUCCESS"))] = true :=
  ((c6_evaluate_condition_semantics (str " outcome=success ")
      (NodeOutcome.success (str "ok"))
      [((str "outcome"), (str "SUCCESS"))]).1
    (str "success") (by decide)).mpr (by decide)

/-- C3, counterexample.  The claim says `validate` errors on every graph
holding an `exec` node with an absent or empty command.  This concrete
graph holds an `exec` node with no command at all, yet `validate` accepts
it: the validator checks only start and exit presence. -/
theorem c3_counterexample :
    validate
      (AttractorGraph.mk (str "test")
      [((str "start"), AttractorNode.mk (str "start") (str "Mdiamond") (some (str "start")) none none none false 0),
       ((str "run"), AttractorNode.mk (str "run") (str "box") (some (str "exec")) none none none false 0),
       ((str "exit"), AttractorNode.mk (str "exit") (str "Msquare") (some (str "exit")) none none none false 0)]
      [] 50) = Except.ok () := rfl

/-- C3, amended.  `validate` checks only that a start node and an exit node
exist; the exec-command rule lives in `compile_attractor_graph`, which
rejects every graph holding an `exec` node whose command is absent (`None`)
— an empty command string passes both — so the controller refuses to
compile such a graph even though it validates. -/
theorem c3_validate_and_compile_gate (g : AttractorGraph) (entry : Option Str) :
    (validate g = Except.ok () ↔ (g.findStart ≠ none ∧ g.findExit ≠ none)) ∧
    ((∃ p ∈ g.nodes, p.2.handler_type = some (str "exec") ∧ p.2.command = none) →
      ∃ e, compileFront g entry = Except.error e) ∧
    ((∀ p ∈ g.nodes, ¬ (p.2.handler_type = some (str "exec") ∧ p.2.command = none)) →
      validate g = Except.ok () → entry = none → compileFront g entry = Except.ok ()) := by
  refine ⟨?_, ?_, ?_⟩
  · unfold validate
    by_cases h1 : g.findStart = none
    · simp [h1]
    · by_cases h2 : g.findExit = none
      · simp [h1, h2]
      · simp [h1, h2]
  · intro ⟨p, hp, hexec, hcmd⟩
    cases hv : validate g with
    | error e =>
      refine ⟨e, ?_⟩
      unfold compileFront
      rw [hv]
    | ok u =>
      have hfind : (g.nodes.find? (fun p =>
          p.2.handler_type == some (str "exec") && p.2.command == none)).isSome := by
        rw [List.find?_isSome]
        exact ⟨p, hp, by simp [hexec, hcmd]⟩
      cases hf : g.nodes.find? (fun p =>
          p.2.handler_type == some (str "exec") && p.2.command == none) with
      | none => rw [hf] at hfind; cases hfind
      | some q =>
        refine ⟨(str "exec node '") ++ q.1 ++ (str "' requires a command attribute"), ?_⟩
        unfold compileFront
        cases u
        rw [hv, hf]
  · intro hnone hv hentry
    subst hentry
    have hfind : g.nodes.find? (fun p =>
        p.2.handler_type == some (str "exec") && p.2.command == none) = none := by
      rw [List.find?_eq_none]
      intro p hp
      have := hnone p hp
      simp only [Bool.and_eq_true, beq_iff_eq, not_and] at this ⊢
      intro h1 h2
      exact this (by simpa using h1) (by simpa using h2)
    have hse : g.findStart ≠ none ∧ g.findExit ≠ none := by
      have : validate g = Except.ok () ↔ (g.findStart ≠ none ∧ g.findExit ≠ none) := by
        unfold validate
        by_cases h1 : g.findStart = none
        · simp [h1]
        · by_cases h2 : g.findExit = none
          · simp [h1, h2]
          · simp [h1, h2]
      exact this.mp hv
    unfold compileFront
    rw [hv, hfind]
    cases hs : g.findStart with
    | none => exact absurd hs hse.1
    | some n =>
      cases he : g.findExit with
      | none => exact absurd he hse.2
      | some m => rfl

/-- C3, witness: the `exec`-without-command graph of the counterexample is
refused by the compile gate, while the same graph with an empty (`""`)
command compiles past all the guards. -/
theorem c3_validate_and_compile_gate_witness :
    (∃ e, compileFront
      (AttractorGraph.mk (str "test")
      [((str "start"), AttractorNode.mk (str "start") (str "Mdiamond") (some (str "start")) none none none false 0),
       ((str "run"), AttractorNode.mk (str "run") (str "box") (some (str "exec")) none none none false 0),
       ((str "exit"), AttractorNode.mk (str "exit") (str "Msquare") (some (str "exit")) none none none false 0)]
      [] 50) none = Except.error e) ∧
    compileFront
      (AttractorGraph.mk (str "test")
      [((str "start"), AttractorNode.mk (str "start") (str "Mdiamond") (some (str "start")) none none none false 0),
       ((str "run"), AttractorNode.mk (str "run") (str "box") (some (str "exec")) none none (some (str "")) false 0),
       ((str "exit"), AttractorNode.mk (str "exit") (str "Msquare") (some (str "exit")) none none none false 0)]
      [] 50) none = Except.ok () := by
  constructor
  · exact (c3_validate_and_compile_gate _ none).2.1 (by decide)
  · exact (c3_validate_and_compile_gate _ none).2.2 (by decide) rfl rfl

/-! Order lemmas for the edge comparator. -/

/-- Characters with equal code points are equal. -/
theorem char_toNat_inj {a b : Char} (h : a.toNat = b.toNat) : a = b := by
  unfold Char.toNat at h
  exact Char.eq_of_val_eq (UInt32.toNat.inj h)

/-- Comparison of a string with itself. -/
theorem cmpStr_self : ∀ (a : Str), cmpStr a a = .eq
  | [] => rfl
  | c :: cs => by simp [cmpStr, cmpStr_self cs]

/-- Comparison yields `eq` exactly on equal strings. -/
theorem cmpStr_eq_iff : ∀ (a b : Str), cmpStr a b = .eq ↔ a = b
  | [], [] => by simp [cmpStr]
  | [], _ :: _ => by simp [cmpStr]
  | _ :: _, [] => by simp [cmpStr]
  | x :: xs, y :: ys => by
    simp only [cmpStr]
    by_cases h1 : x.toNat < y.toNat
    · simp only [h1, if_true]
      constructor
      · intro h
        cases h
      · intro h
        cases h
        omega
    · by_cases h2 : y.toNat < x.toNat
      · simp only [h1, if_false, h2, if_true]
        constructor
        · intro h
          cases h
        · intro h
          cases h
          omega
      · have hxy : x = y := char_toNat_inj (by omega)
        subst hxy
        simp [h1, h2, cmpStr_eq_iff xs ys]

/-- Duality of the string comparison. -/
theorem cmpStr_gt_iff : ∀ (a b : Str), cmpStr a b = .gt ↔ cmpStr b a = .lt
  | [], [] => by simp [cmpStr]
  | [], _ :: _ => by simp [cmpStr]
  | _ :: _, [] => by simp [cmpStr]
  | x :: xs, y :: ys => by
    simp only [cmpStr]
    by_cases h1 : x.toNat < y.toNat
    · have h2 : ¬ (y.toNat < x.toNat) := by omega
      simp [h1, h2]
    · by_cases h2 : y.toNat < x.toNat
      · simp [h1, h2]
      · simp [h1, h2, cmpStr_gt_iff xs ys]

/-- Transitivity of strict string comparison. -/
theorem cmpStr_lt_trans : ∀ (a b c : Str),
    cmpStr a b = .lt → cmpStr b c = .lt → cmpStr a c = .lt
  | [], [], _ => by simp [cmpStr]
  | [], _ :: _, [] => by simp [cmpStr]
  | [], _ :: _, _ :: _ => by simp [cmpStr]
  | _ :: _, [], _ => by simp [cmpStr]
  | _ :: _, _ :: _, [] => by simp [cmpStr]
  | x :: xs, y :: ys, z :: zs => by
    simp only [cmpStr]
    intro h1 h2
    by_cases hxy : x.toNat < y.toNat
    · by_cases hyz : y.toNat < z.toNat
      · have hxz : x.toNat < z.toNat := by omega
        simp [hxz]
      · by_cases hzy : z.toNat < y.toNat
        · simp [hyz, hzy] at h2
        · have hxz : x.toNat < z.toNat := by omega
          simp [hxz]
    · by_cases hyx : y.toNat < x.toNat
      · simp [hxy, hyx] at h1
      · by_cases hyz : y.toNat < z.toNat
        · have hxz : x.toNat < z.toNat := by omega
          simp [hxz]
        · by_cases hzy : z.toNat < y.toNat
          · simp [hyz, hzy] at h2
          · have h1' : cmpStr xs ys = .lt := by simpa [hxy, hyx] using h1
            have h2' : cmpStr ys zs = .lt := by simpa [hyz, hzy] using h2
            have hxz : ¬ (x.toNat < z.toNat) := by omega
            have hzx : ¬ (z.toNat < x.toNat) := by omega
            simpa [hxz, hzx] using cmpStr_lt_trans xs ys zs h1' h2'

/-- Integer comparison characterizations. -/
theorem cmpInt_lt_iff (a b : Int) : cmpInt a b = .lt ↔ a < b := by
  unfold cmpInt
  split
  · simpa
  · split
    · simp
      omega
    · simp
      omega

/-- Integer comparison equality case. -/
theorem cmpInt_eq_iff (a b : Int) : cmpInt a b = .eq ↔ a = b := by
  unfold cmpInt
  split
  · simp
    omega
  · split
    · simpa
    · simp
      omega

/-- Composition characterization for `Ordering.then`. -/
theorem ordering_then_eq_lt (a b : Ordering) :
    a.then b = .lt ↔ (a = .lt ∨ (a = .eq ∧ b = .lt)) := by
  cases a <;> simp [Ordering.then]

/-- Composition characterization for `Ordering.then`, equality case. -/
theorem ordering_then_eq_eq (a b : Ordering) :
    a.then b = .eq ↔ (a = .eq ∧ b = .eq) := by
  cases a <;> simp [Ordering.then]

/-- Edge comparator, strict case: higher weight first, then smaller target
id. -/
theorem cmpEdge_lt_iff (x y : AttractorEdge) :
    cmpEdge x y = .lt ↔
      (y.weight < x.weight ∨ (y.weight = x.weight ∧ cmpStr x.to_node y.to_node = .lt)) := by
  unfold cmpEdge
  rw [ordering_then_eq_lt, cmpInt_lt_iff, cmpInt_eq_iff]

/-- Edge comparator, equality case. -/
theorem cmpEdge_eq_iff (x y : AttractorEdge) :
    cmpEdge x y = .eq ↔ (y.weight = x.weight ∧ x.to_node = y.to_node) := by
  unfold cmpEdge
  rw [ordering_then_eq_eq, cmpInt_eq_iff, cmpStr_eq_iff]

/-- Edge comparator duality. -/
theorem cmpEdge_gt_iff (x y : AttractorEdge) :
    cmpEdge x y = .gt ↔ cmpEdge y x = .lt := by
  unfold cmpEdge
  cases hw : cmpInt y.weight x.weight with
  | lt =>
    have h1 : x.weight ≠ y.weight := by
      have := (cmpInt_lt_iff y.weight x.weight).mp hw
      omega
    have h2 : cmpInt x.weight y.weight = .lt → False := by
      intro h
      have := (cmpInt_lt_iff x.weight y.weight).mp h
      have := (cmpInt_lt_iff y.weight x.weight).mp hw
      omega
    rw [ordering_then_eq_lt, cmpInt_lt_iff, cmpInt_eq_iff]
    have := (cmpInt_lt_iff y.weight x.weight).mp hw
    simp [Ordering.then]
    omega
  | eq =>
    have he : y.weight = x.weight := (cmpInt_eq_iff y.weight x.weight).mp hw
    have hw' : cmpInt x.weight y.weight = .eq := (cmpInt_eq_iff x.weight y.weight).mpr he.symm
    rw [hw']
    simp [Ordering.then]
    constructor
    · intro h
      exact (cmpStr_gt_iff x.to_node y.to_node).mp h
    · intro h
      exact (cmpStr_gt_iff x.to_node y.to_node).mpr h
  | gt =>
    have h1 : x.weight < y.weight := by
      unfold cmpInt at hw
      split at hw
      · cases hw
      · split at hw
        · cases hw
        · omega
    have hw' : cmpInt x.weight y.weight = .lt := (cmpInt_lt_iff x.weight y.weight).mpr h1
    rw [hw']
    simp [Ordering.then]

/-- Transitivity of the strict edge comparator. -/
theorem cmpEdge_lt_trans (x y z : AttractorEdge)
    (h1 : cmpEdge x y = .lt) (h2 : cmpEdge y z = .lt) : cmpEdge x z = .lt := by
  rw [cmpEdge_lt_iff] at h1 h2 ⊢
  rcases h1 with h1 | ⟨h1w, h1s⟩
  · rcases h2 with h2 | ⟨h2w, _⟩
    · exact Or.inl (by omega)
    · exact Or.inl (by omega)
  · rcases h2 with h2 | ⟨h2w, h2s⟩
    · exact Or.inl (by omega)
    · exact Or.inr ⟨by omega, cmpStr_lt_trans _ _ _ h1s h2s⟩

/-- Comparator-equal edges compare identically against any third edge. -/
theorem cmpEdge_congr (x y z : AttractorEdge) (h : cmpEdge x y = .eq) :
    cmpEdge x z = cmpEdge y z := by
  rw [cmpEdge_eq_iff] at h
  unfold cmpEdge
  rw [h.1, h.2]

/-- An edge never sorts strictly before itself. -/
theorem cmpEdge_self_ne_lt (x : AttractorEdge) : ¬ (cmpEdge x x = .lt) := by
  rw [cmpEdge_lt_iff]
  intro h
  rcases h with h | ⟨_, hs⟩
  · omega
  · rw [(cmpStr_eq_iff x.to_node x.to_node).mpr rfl] at hs
    cases hs

/-- The fold of `best_by_weight_then_lexical` returns a member of the list
that no member sorts strictly before (the first minimum of the source's
stable sort). -/
theorem foldlMin_spec (e : AttractorEdge) :
    ∀ (es : List AttractorEdge),
      (es.foldl (fun acc f => if cmpEdge f acc = .lt then f else acc) e) ∈ e :: es ∧
      ∀ f ∈ e :: es,
        ¬ (cmpEdge f (es.foldl (fun acc f => if cmpEdge f acc = .lt then f else acc) e) = .lt)
  | [] => by
    refine ⟨by simp, ?_⟩
    intro f hf
    simp only [List.foldl_nil]
    simp at hf
    subst hf
    exact cmpEdge_self_ne_lt f
  | g :: rest => by
    by_cases hge : cmpEdge g e = .lt
    · have ih := foldlMin_spec g rest
      simp only [List.foldl_cons, if_pos hge]
      refine ⟨?_, ?_⟩
      · rcases List.mem_cons.mp ih.1 with h | h
        · rw [h]
          simp
        · simp [h]
      · intro f hf
        have haccb := ih.2 g (List.mem_cons_self g rest)
        rcases List.mem_cons.mp hf with rfl | hf2
        · intro heb
          exact haccb (cmpEdge_lt_trans g _ _ hge heb)
        · rcases List.mem_cons.mp hf2 with rfl | hf3
          · exact haccb
          · exact ih.2 f (List.mem_cons_of_mem g hf3)
    · have ih := foldlMin_spec e rest
      simp only [List.foldl_cons, if_neg hge]
      refine ⟨?_, ?_⟩
      · rcases List.mem_cons.mp ih.1 with h | h
        · rw [h]
          simp
        · simp [h]
      · intro f hf
        have haccb := ih.2 e (List.mem_cons_self e rest)
        rcases List.mem_cons.mp hf with rfl | hf2
        · exact haccb
        · rcases List.mem_cons.mp hf2 with rfl | hf3
          · intro hgb
            rcases hcase : cmpEdge f e with _ | _ | _
            · exact hge hcase
            · exact haccb (by rw [← cmpEdge_congr f e _ hcase]; exact hgb)
            · exact haccb (cmpEdge_lt_trans e f _ ((cmpEdge_gt_iff f e).mp hcase) hgb)
          · exact ih.2 f (List.mem_cons_of_mem e hf3)

/-- C5.  When at least one outgoing edge's condition evaluates true,
`select_edge` returns the to-id of a condition-matched edge of maximal
weight whose to-id is lexicographically least among the matched edges of
that weight, with `done = false` — whatever the outcome's preferred label,
suggested ids, or the unconditional and fallback edges would choose, since
the condition branch commits first. -/
theorem c5_condition_match_selection (input : SelectEdgeInput)
    (h : conditionMatched input ≠ []) :
    ∃ b ∈ conditionMatched input,
      select_edge input = { next_node_id := some b.to_node, done := false } ∧
      (∀ e ∈ conditionMatched input, e.weight ≤ b.weight) ∧
      (∀ e ∈ conditionMatched input, e.weight = b.weight →
        ¬ (cmpStr b.to_node e.to_node = .gt)) := by
  obtain ⟨m, ms, heq⟩ : ∃ m ms, conditionMatched input = m :: ms := by
    cases hcm : conditionMatched input with
    | nil => exact absurd hcm h
    | cons m ms => exact ⟨m, ms, rfl⟩
  have hb := foldlMin_spec m ms
  refine ⟨ms.foldl (fun acc f => if cmpEdge f acc = .lt then f else acc) m,
    by rw [heq]; exact hb.1, ?_, ?_, ?_⟩
  · have hedges : (input.graph.outgoingEdges input.node_id).isEmpty = false := by
      cases hel : input.graph.outgoingEdges input.node_id with
      | nil =>
        exfalso
        apply h
        unfold conditionMatched
        rw [hel]
        rfl
      | cons x xs => rfl
    unfold select_edge
    simp only [hedges, Bool.false_eq_true, if_false, heq, best_by_weight_then_lexical]
  · intro e he
    rw [heq] at he
    have hmin := hb.2 e he
    rw [cmpEdge_lt_iff] at hmin
    by_contra hlt
    exact hmin (Or.inl (by omega))
  · intro e he hw
    rw [heq] at he
    have hmin := hb.2 e he
    rw [cmpEdge_lt_iff] at hmin
    intro hgt
    exact hmin (Or.inr ⟨hw.symm, (cmpStr_gt_iff _ _).mp hgt⟩)

/-- C5, witness: node `n` with condition-matched edges to `b` and `a` (equal
weight 1) and a weight-9 unconditional edge to `c`; the outcome also
prefers label `c` and suggests `c`, yet selection returns `a` — the
matched-edge rule commits with the lexicographically smaller target. -/
theorem c5_condition_match_selection_witness :
    conditionMatched
      { node_id := str "n"
        outcome := NodeOutcome.mk .Error none none [] (some (str "c")) [str "c"]
        context := [((str "outcome"), (str "Error"))]
        graph := AttractorGraph.mk (str "g") []
          [AttractorEdge.mk (str "n") (str "b") none (some (str "outcome=error")) 1,
           AttractorEdge.mk (str "n") (str "a") none (some (str "outcome=error")) 1,
           AttractorEdge.mk (str "n") (str "c") (some (str "c")) none 9] 50 } ≠ [] ∧
    select_edge
      { node_id := str "n"
        outcome := NodeOutcome.mk .Error none none [] (some (str "c")) [str "c"]
        context := [((str "outcome"), (str "Error"))]
        graph := AttractorGraph.mk (str "g") []
          [AttractorEdge.mk (str "n") (str "b") none (some (str "outcome=error")) 1,
           AttractorEdge.mk (str "n") (str "a") none (some (str "outcome=error")) 1,
           AttractorEdge.mk (str "n") (str "c") (some (str "c")) none 9] 50 } =
      { next_node_id := some (str "a"), done := false } := by
  constructor
  · decide
  · obtain ⟨b, hbmem, hsel, hmax, hlex⟩ := c5_condition_match_selection
      { node_id := str "n"
        outcome := NodeOutcome.mk .Error none none [] (some (str "c")) [str "c"]
        context := [((str "outcome"), (str "Error"))]
        graph := AttractorGraph.mk (str "g") []
          [AttractorEdge.mk (str "n") (str "b") none (some (str "outcome=error")) 1,
           AttractorEdge.mk (str "n") (str "a") none (some (str "outcome=error")) 1,
           AttractorEdge.mk (str "n") (str "c") (some (str "c")) none 9] 50 }
      (by decide)
    rw [hsel]
    have : b.to_node = str "a" := by
      have hm : conditionMatched
          { node_id := str "n"
            outcome := NodeOutcome.mk .Error none none [] (some (str "c")) [str "c"]
            context := [((str "outcome"), (str "Error"))]
            graph := AttractorGraph.mk (str "g") []
              [AttractorEdge.mk (str "n") (str "b") none (some (str "outcome=error")) 1,
               AttractorEdge.mk (str "n") (str "a") none (some (str "outcome=error")) 1,
               AttractorEdge.mk (str "n") (str "c") (some (str "c")) none 9] 50 } =
          [AttractorEdge.mk (str "n") (str "b") none (some (str "outcome=error")) 1,
           AttractorEdge.mk (str "n") (str "a") none (some (str "outcome=error")) 1] := by
        decide
      rw [hm] at hbmem hmax hlex
      have hw := hmax (AttractorEdge.mk (str "n") (str "a") none (some (str "outcome=error")) 1)
        (by simp)
      rcases List.mem_cons.mp hbmem with rfl | hb2
      · exfalso
        have := hlex (AttractorEdge.mk (str "n") (str "a") none (some (str "outcome=error")) 1)
          (by simp) (by simp)
        revert this
        decide
      · rcases List.mem_cons.mp hb2 with rfl | hb3
        · rfl
        · cases hb3
    rw [this]

/-- Unfolding step of `runLoopAux` when the iteration continues. -/
theorem runLoopAux_fst_step (n : Nat) (s : ExecutionState) (o : NodeOutcome)
    (s' : ExecutionState) (nid : Str)
    (h : loopIteration s = Except.ok (o, s', some nid)) :
    (runLoopAux (n + 1) s).1 = (runLoopAux n { s' with current_node_id := nid }).1 := by
  have heq : runLoopAux (n + 1) s =
      (match runLoopAux n { s' with current_node_id := nid } with
       | (r, k) => (r, k + 1)) := by
    conv_lhs => unfold runLoopAux
    rw [h]
  rw [heq]

/-- The loop executes at most as many iterations as it has fuel. -/
theorem runLoopAux_count_le : ∀ (n : Nat) (s : ExecutionState), (runLoopAux n s).2 ≤ n
  | 0, _ => Nat.le_refl 0
  | n + 1, s => by
    unfold runLoopAux
    cases h : loopIteration s with
    | error e => simp
    | ok t =>
      obtain ⟨o, s', nid⟩ := t
      cases nid with
      | none => simp
      | some next_id =>
        have ih := runLoopAux_count_le n { s' with current_node_id := next_id }
        simp only []
        rcases hrk : runLoopAux n { s' with current_node_id := next_id } with ⟨r, k⟩
        rw [hrk] at ih
        simpa using Nat.succ_le_succ ih

/-- On the cyclic graph every fuel level ends in the hard cap error: each
iteration selects the self-edge again. -/
theorem cycLoop_err : ∀ (n : Nat) (ctx : RunContext) (comp : List Str)
    (oc : List (Str × NodeOutcome)),
    (runLoopAux n (mkCycState ctx comp oc)).1 = .err (str "Max iterations exceeded")
  | 0, _, _, _ => rfl
  | n + 1, ctx, comp, oc => by
    have hstep : loopIteration (mkCycState ctx comp oc) =
        Except.ok (build_codergen_outcome cycNode,
          { mkCycState ctx comp oc with
            context := apply_context_updates ctx (build_codergen_outcome cycNode)
            completed_nodes := comp ++ [str "a"]
            node_outcomes := ((str "a"), build_codergen_outcome cycNode) ::
              oc.filter (fun p => ¬ (p.1 = str "a")) },
          some (str "a")) := rfl
    rw [runLoopAux_fst_step n _ _ _ _ hstep]
    exact cycLoop_err n (apply_context_updates ctx (build_codergen_outcome cycNode))
      (comp ++ [str "a"])
      (((str "a"), build_codergen_outcome cycNode) :: oc.filter (fun p => ¬ (p.1 = str "a")))

/-- C9.  The stepwise loop `run_execution_loop_once` runs `runLoopAux` with
fuel 1000 (`max_iter`), executes at most 1000 iterations, returns the hard
error `"Max iterations exceeded"` when the fuel is exhausted, and in
particular terminates with that error on the cyclic one-node graph; the
loop is a total function for every graph and initial state by its fuel
structure. -/
theorem c9_iteration_cap :
    (∀ s : ExecutionState, run_execution_loop_once s = (runLoopAux 1000 s).1) ∧
    (∀ (n : Nat) (s : ExecutionState), (runLoopAux n s).2 ≤ n) ∧
    (∀ s : ExecutionState, (runLoopAux 0 s).1 = .err (str "Max iterations exceeded")) ∧
    (∀ (ctx : RunContext), run_execution_loop_once (mkCycState ctx [] []) =
      .err (str "Max iterations exceeded")) ∧
    (∀ (H : AttractorNode → RunContext → AttractorGraph → NodeOutcome)
       (s : ExecutionState),
      specStepwiseResult (specStepwiseLoop H 0 s).1 =
        Except.error (str "Max iterations exceeded")) := by
  refine ⟨fun _ => rfl, runLoopAux_count_le, fun _ => rfl, ?_, fun _ _ => rfl⟩
  intro ctx
  exact cycLoop_err 1000 ctx [] []

/-- C1.  When the stepwise (log-enabled) run loop terminates because
`select_next` yields no next node, the run succeeds iff the final node
outcome is success-like (`success` or `partial_success`); on a final
`error` outcome the controller writes `final_status = "error"` into the
final execution log and returns the error, and on a success-like final
outcome it writes `final_status = "success"`.  The loop revision with step
recording is spec-modelled (see `specStepwiseLoop`); the controller arm is
src/runner.rs lines 170-189. -/
theorem c1_stepwise_final_outcome
    (H : AttractorNode → RunContext → AttractorGraph → NodeOutcome)
    (fuel : Nat) (state : ExecutionState) (goal started_at now : Str)
    (o : NodeOutcome) (res : AttractorResult)
    (h : (specStepwiseLoop H fuel state).1 = LoopExit.noNext o res) :
    ((runCompiledGraphStepwise H fuel state goal started_at now).2.isOk = true ↔
      isSuccessLike o.status = true) ∧
    (isSuccessLike o.status = true →
      (runCompiledGraphStepwise H fuel state goal started_at now).1.final_status =
        str "success") ∧
    (o.status = .Error →
      (runCompiledGraphStepwise H fuel state goal started_at now).1.final_status =
        str "error" ∧
      ∃ e, (runCompiledGraphStepwise H fuel state goal started_at now).2 =
        Except.error e) := by
  rcases hls : specStepwiseLoop H fuel state with ⟨ex, st⟩
  rw [hls] at h
  simp only at h
  subst h
  unfold runCompiledGraphStepwise
  rw [hls]
  by_cases hok : isSuccessLike o.status = true
  · simp only [specStepwiseResult, hok, if_true]
    refine ⟨by simp [Except.isOk, Except.toBool, hok], fun _ => rfl, ?_⟩
    intro herr
    rw [herr] at hok
    exact absurd hok (by decide)
  · simp only [specStepwiseResult, hok, if_false]
    have hokf : isSuccessLike o.status = false := by
      cases hb : isSuccessLike o.status
      · rfl
      · exact absurd hb hok
    refine ⟨by simp [Except.isOk, Except.toBool, hokf], ?_, ?_⟩
    · intro hc
      exact absurd hc (by decide)
    · intro _
      exact ⟨rfl, o.failure_reason.getD (str "error"), rfl⟩

/-- C1, witness: a handler that always errors, on a one-node graph with no
outgoing edges.  The loop exits with no next node and an `error` outcome;
the final log carries `final_status = "error"` and the run returns an
error. -/
theorem c1_stepwise_final_outcome_witness :
    (runCompiledGraphStepwise (fun _ _ _ => NodeOutcome.error (str "boom")) 1000
      ⟨AttractorGraph.mk (str "g")
        [((str "solo"), AttractorNode.mk (str "solo") (str "box") none none none none false 0)]
        [] 50, [], str "solo", [], [], some []⟩
      (str "g") (str "t0") (str "t1")).1.final_status = str "error" ∧
    (∃ e, (runCompiledGraphStepwise (fun _ _ _ => NodeOutcome.error (str "boom")) 1000
      ⟨AttractorGraph.mk (str "g")
        [((str "solo"), AttractorNode.mk (str "solo") (str "box") none none none none false 0)]
        [] 50, [], str "solo", [], [], some []⟩
      (str "g") (str "t0") (str "t1")).2 = Except.error e) := by
  have h := (c1_stepwise_final_outcome (fun _ _ _ => NodeOutcome.error (str "boom")) 1000
      ⟨AttractorGraph.mk (str "g")
        [((str "solo"), AttractorNode.mk (str "solo") (str "box") none none none none false 0)]
        [] 50, [], str "solo", [], [], some []⟩
      (str "g") (str "t0") (str "t1")
      (NodeOutcome.error (str "boom"))
      { last_outcome := NodeOutcome.error (str "boom")
        completed_nodes := [str "solo"]
        context := apply_context_updates [] (NodeOutcome.error (str "boom")) }
      rfl).2.2 rfl
  exact h

/-- C7, counterexample.  The claim puts the failure text in `notes`
(`notes "exit N"` / `"signal"`).  For exit code 2 the emitted outcome has
`notes = None` — `NodeOutcome::error` stores the text in `failure_reason` —
and termination by a signal yields `"exit -1"` (`code().unwrap_or(-1)`),
never `"signal"`. -/
theorem c7_counterexample :
    (execNodeOutcome (.ran (.exited 2))).status = .Error ∧
    (execNodeOutcome (.ran (.exited 2))).notes = none ∧
    ¬ ((execNodeOutcome (.ran (.exited 2))).notes = some (str "exit 2")) ∧
    (execNodeOutcome (.ran .signaled)).failure_reason = some (str "exit -1") ∧
    ¬ ((execNodeOutcome (.ran .signaled)).failure_reason = some (str "signal")) := by
  decide

/-- C7, amended.  For every payload an ExecNode processes: exit 0 emits
`success` with `notes = "ok"` on the `out` port; a non-zero exit N emits
`error` with `failure_reason = "exit N"` (notes absent) on the `error`
port; termination by a signal emits `error` with
`failure_reason = "exit -1"` on the `error` port; a spawn failure emits
`error` carrying the rendered IO error. -/
theorem c7_exec_outcome_routing :
    (execNodeOutcome (.ran (.exited 0)) = NodeOutcome.success (str "ok") ∧
      execNodePort (execNodeOutcome (.ran (.exited 0))) = .out) ∧
    (∀ n : Int, n ≠ 0 →
      execNodeOutcome (.ran (.exited n)) =
        NodeOutcome.error ((str "exit ") ++ (toString n).data) ∧
      execNodePort (execNodeOutcome (.ran (.exited n))) = .error) ∧
    (execNodeOutcome (.ran .signaled) =
        NodeOutcome.error ((str "exit ") ++ (toString (-1 : Int)).data) ∧
      execNodePort (execNodeOutcome (.ran .signaled)) = .error) ∧
    (∀ e : Str, execNodeOutcome (.ioError e) = NodeOutcome.error e) := by
  refine ⟨by decide, ?_, by decide, fun e => rfl⟩
  intro n hn
  have hz : (n == 0) = false := by
    simp only [beq_eq_false_iff_ne, ne_eq]
    exact hn
  constructor
  · simp [execNodeOutcome, ExitStatus.isSuccess, hz, ExitStatus.code]
  · simp [execNodeOutcome, ExitStatus.isSuccess, hz, ExitStatus.code, execNodePort,
      NodeOutcome.error]

/-- C7, witness: exit code 2 emits `error` with `failure_reason "exit 2"`
routed to the `error` port. -/
theorem c7_exec_outcome_routing_witness :
    execNodeOutcome (.ran (.exited 2)) = NodeOutcome.error (str "exit 2") ∧
    execNodePort (execNodeOutcome (.ran (.exited 2))) = .error := by
  have h := c7_exec_outcome_routing.2.1 2 (by decide)
  refine ⟨?_, h.2⟩
  rw [h.1]
  decide

/-- C4 (code bug).  `parse_node_attrs` has no arm for the `command` key: a
node declared with `type=exec, command="true"` parses with
`command = None`, and the same DOT as the repo's own
`compile_with_conditional_routing` test yields a `run` node without a
command — which the compile gate then rejects, contradicting the test, the
spec's recognized-keys list and the `AttractorNode::command` field. -/
theorem c4_parse_node_attrs_drops_command :
    parse_node_attrs (str "run")
      [((str "type"), (str "exec")), ((str "command"), (str "true"))] =
      Except.ok (AttractorNode.mk (str "run") (str "box") (some (str "exec"))
        (some (str "run")) none none false 0) ∧
    (match parse_dot (str "digraph G \x7b start [shape=Mdiamond] run [type=exec, command=\"true\"] exit [shape=Msquare] start -> run -> exit \x7d") with
     | .ok g => (mapGet g.nodes (str "run")).map (fun n => (n.handler_type, n.command))
     | _ => none) = some (some (str "exec"), none) := by
  constructor
  · rfl
  · decide

/-- C8 (code bug).  On an unterminated double-quoted attribute value the
scan in `parse_value` runs to the end of the string and the source then
slices `&s[end + 1..]` with `end = s.len()`, which panics; `parse_dot` on
a DOT text with an unterminated quoted value reaches that slice, so it
panics instead of returning an error. -/
theorem c8_parse_dot_panics_on_unterminated_quote :
    parse_dot (str "digraph g \x7b a [label=\"x \x7d") = .panic ∧
    parse_value (str "\"x \x7d") = .panic := by
  constructor
  · decide
  · decide

end Attractor
